import Mathlib

/-!
Verification of the request-guard / upstream-fetcher core of the
courtlistener-mcp server (src/src/index.ts), shallowly embedded in Lean.

JS strings are modelled as lists of Unicode scalar values (Lean Char);
JS regex replacement with the g flag is modelled as a single left-to-right
scan that, on a match, emits the replacement and resumes scanning after
the matched region (a skip counter makes the scan structurally
recursive, hence kernel-computable).  Truncation counts UTF-16 code
units; the model never splits a surrogate pair, while JS substring can
leave a lone surrogate -- this deviation does not affect any stated
property since both stay within the code-unit bound.
-/

/-- The characters removed by the first replace pass of sanitizeString:
less-than, greater-than, double quote, single quote, ampersand
(code points 60, 62, 34, 39, 38). -/
def isDangerousChar (c : Char) : Bool :=
  c.val == 60 || c.val == 62 || c.val == 34 || c.val == 39 || c.val == 38

/-- JS regex word class (ASCII letters, digits, underscore). -/
def isWordChar (c : Char) : Bool :=
  c.isAlphanum || c.val == 95

/-- JS regex whitespace class. -/
def isJsSpace (c : Char) : Bool :=
  (9 ≤ c.val && c.val ≤ 13) || c.val == 32 || c.val == 160 || c.val == 0x1680 ||
  (0x2000 ≤ c.val && c.val ≤ 0x200a) || c.val == 0x2028 || c.val == 0x2029 ||
  c.val == 0x202f || c.val == 0x205f || c.val == 0x3000 || c.val == 0xfeff

/-- Case-insensitive literal match of pat at the head of the text
(the i flag on an ASCII-literal pattern). -/
def ciStarts : List Char → List Char → Bool
  | [], _ => true
  | _ :: _, [] => false
  | p :: ps, c :: cs => (p.toLower == c.toLower) && ciStarts ps cs

/-- Case-insensitive literal substring test. -/
def ciContains (pat : List Char) : List Char → Bool
  | [] => ciStarts pat []
  | c :: cs => ciStarts pat (c :: cs) || ciContains pat cs

/-- One global-replace pass deleting every match of a literal pattern,
scanning left to right and resuming after each match (skip counts the
remaining characters of the current match still to be consumed). -/
def removeAllCIAux (pat : List Char) : List Char → Nat → List Char
  | [], _ => []
  | _ :: cs, skip + 1 => removeAllCIAux pat cs skip
  | c :: cs, 0 =>
    if ciStarts pat (c :: cs) then removeAllCIAux pat cs (pat.length - 1)
    else c :: removeAllCIAux pat cs 0

/-- replace(pat-with-gi-flags, empty string) for a literal pattern. -/
def removeAllCI (pat l : List Char) : List Char :=
  removeAllCIAux pat l 0

/-- Length of the regex match on-word-chars-spaces-equals at the head of
the text, if any.  Greedy matching needs no backtracking here because
the word class, the space class and the equals sign are pairwise
disjoint. -/
def onMatchLen (l : List Char) : Option Nat :=
  match l with
  | c1 :: c2 :: rest =>
    if c1.toLower == 'o' && c2.toLower == 'n' then
      let w := rest.takeWhile isWordChar
      if w.isEmpty then none
      else
        let rest2 := rest.drop w.length
        let sp := rest2.takeWhile isJsSpace
        match rest2.drop sp.length with
        | e :: _ => if e == '=' then some (2 + w.length + sp.length + 1) else none
        | [] => none
    else none
  | _ => none

/-- One global-replace pass deleting every event-handler pattern. -/
def removeOnPatAux : List Char → Nat → List Char
  | [], _ => []
  | _ :: cs, skip + 1 => removeOnPatAux cs skip
  | c :: cs, 0 =>
    match onMatchLen (c :: cs) with
    | some n => removeOnPatAux cs (n - 1)
    | none => c :: removeOnPatAux cs 0

def removeOnPat (l : List Char) : List Char :=
  removeOnPatAux l 0

/-- Does some suffix of the text start with an event-handler match. -/
def hasOnPat : List Char → Bool
  | [] => false
  | c :: cs => (onMatchLen (c :: cs)).isSome || hasOnPat cs

/-- One global-replace pass replacing every match of pat-then-digits by
the marker [REDACTED]. -/
def redactAux (pat : List Char) : List Char → Nat → List Char
  | [], _ => []
  | _ :: cs, skip + 1 => redactAux pat cs skip
  | c :: cs, 0 =>
    if ciStarts pat (c :: cs) then
      let ds := ((c :: cs).drop pat.length).takeWhile Char.isDigit
      "[REDACTED]".data ++ redactAux pat cs (pat.length + ds.length - 1)
    else c :: redactAux pat cs 0

def redact (pat l : List Char) : List Char :=
  redactAux pat l 0

/-- UTF-16 code units taken by one scalar value. -/
def utf16Units (c : Char) : Nat :=
  if 65536 ≤ c.toNat then 2 else 1

/-- UTF-16 length of a string given as scalar values. -/
def utf16Len (l : List Char) : Nat :=
  (l.map utf16Units).sum

/-- substring(0, n) counted in UTF-16 code units. -/
def takeUtf16 (n : Nat) : List Char → List Char
  | [] => []
  | c :: cs => if utf16Units c ≤ n then c :: takeUtf16 (n - utf16Units c) cs else []

/-- sanitizeString from src/src/index.ts: remove the dangerous
characters, delete the three protocol substrings case-insensitively,
delete event-handler patterns, redact password/secret/token/key
followed by digits, then truncate to 1000 UTF-16 code units. -/
def sanitizeString (s : String) : String :=
  String.mk (takeUtf16 1000
    (redact "key".data
      (redact "token".data
        (redact "secret".data
          (redact "password".data
            (removeOnPat
              (removeAllCI "vbscript:".data
                (removeAllCI "data:".data
                  (removeAllCI "javascript:".data
                    ((s.data.filter fun c => !isDangerousChar c)))))))))))

/-- Lowercase hexadecimal digit, the character class of the token regex. -/
def isLowerHexChar (c : Char) : Bool :=
  c.isDigit || ('a' ≤ c && c ≤ 'f')

/-- validateApiToken from src/src/index.ts: a missing or empty (falsy)
token is accepted as optional; otherwise the token must match the
anchored regex of exactly 40 lowercase hexadecimal characters. -/
def validateApiToken : Option String → Bool
  | none => true
  | some s => if s = "" then true else s.length == 40 && s.data.all isLowerHexChar

/-- Model of a JS double as it occurs in the claims: NaN or an
integer-valued finite number (the bodies and parameters under test use
no fractional values; infinities do not occur in any claim). -/
inductive JSNum where
  | nan : JSNum
  | int : Int → JSNum
deriving DecidableEq

/-- Model of a JS value crossing the core boundary: parameter values
and parsed JSON bodies. -/
inductive JSVal where
  | undef : JSVal
  | null : JSVal
  | bool : Bool → JSVal
  | num : JSNum → JSVal
  | str : String → JSVal
  | arr : List JSVal → JSVal
  | obj : List (String × JSVal) → JSVal

/-- Number.prototype.toString for the modelled numbers. -/
def jsNumToString : JSNum → String
  | .nan => "NaN"
  | .int n => toString n

/-- The per-entry body of validateAndSanitizeParams: undefined and null
are skipped, strings are sanitized, numbers and booleans are stringified,
arrays and objects fall through every typeof branch and are skipped. -/
def sanitizeParamEntry : JSVal → Option String
  | .undef => none
  | .null => none
  | .str s => some (sanitizeString s)
  | .num n => some (jsNumToString n)
  | .bool b => some (if b then "true" else "false")
  | .arr _ => none
  | .obj _ => none

/-- validateAndSanitizeParams from src/src/index.ts, on the entry list
of the parameter record (keys are distinct in a JS record). -/
def validateAndSanitizeParams (params : List (String × JSVal)) : List (String × String) :=
  params.filterMap fun kv => (sanitizeParamEntry kv.2).map fun s => (kv.1, s)

/-- Property read on a JS object modelled as an association list
(first match; JS object keys are unique). -/
def getField (fields : List (String × JSVal)) (k : String) : Option JSVal :=
  (fields.find? fun kv => kv.1 == k).map fun kv => kv.2

/-- Property write on a JS object: overwrite in place if the key
exists, else append. -/
def setField (fields : List (String × JSVal)) (k : String) (v : JSVal) : List (String × JSVal) :=
  match fields with
  | [] => [(k, v)]
  | (k1, v1) :: rest =>
    if k1 == k then (k, v) :: rest else (k1, v1) :: setField rest k v

/-- Property read through a general JS value (non-objects have no
own properties here). -/
def jsGet (v : JSVal) (k : String) : Option JSVal :=
  match v with
  | .obj fields => getField fields k
  | _ => none

/-- The first if-statement of normalizeApiResponse: count is left alone
exactly when it is a number that is not NaN and not negative, and is
overwritten with results.length otherwise (a string count is never
parsed). -/
def normCountField (fields : List (String × JSVal)) (results : List JSVal) :
    List (String × JSVal) :=
  match getField fields "count" with
  | some (.num (.int n)) =>
    if n < 0 then setField fields "count" (.num (.int results.length)) else fields
  | _ => setField fields "count" (.num (.int results.length))

/-- The next/previous if-statements of normalizeApiResponse: the field
is left alone when it is null or a string, and overwritten with null
otherwise (including when it is absent). -/
def normLinkField (fields : List (String × JSVal)) (k : String) : List (String × JSVal) :=
  match getField fields k with
  | some .null => fields
  | some (.str _) => fields
  | _ => setField fields k .null

/-- normalizeApiResponse from src/src/index.ts.  On a truthy object
whose results property is an array (common to typeof object, truthiness
of the results value and Array.isArray), normalize count and then the
next and previous links; everything else passes through unchanged. -/
def normalizeApiResponse (data : JSVal) : JSVal :=
  match data with
  | .obj fields =>
    match getField fields "results" with
    | some (.arr results) =>
      .obj (normLinkField (normLinkField (normCountField fields results) "next") "previous")
    | _ => data
  | _ => data

/-- Per-identity recorded timestamps, as a total map defaulting to the
empty list (the code inserts an empty array on first sight of a key). -/
def RLState := String → List Int

def initState : RLState := fun _ => []

def setTimes (st : RLState) (id : String) (l : List Int) : RLState :=
  fun k => if k = id then l else st k

/-- The RateLimiter configuration from src/src/index.ts. -/
structure RateLimiter where
  maxRequests : Nat
  windowMs : Int

/-- RateLimiter.isAllowed: evict recorded timestamps strictly older
than now minus the window (the in-place shift persists in the state even
when the call is rejected), reject without recording when the window is
full, otherwise record now and admit.  The clock is passed explicitly. -/
def RateLimiter.isAllowed (rl : RateLimiter) (st : RLState) (id : String) (now : Int) :
    Bool × RLState :=
  let requestTimes := st id
  let kept := requestTimes.dropWhile fun t => t < now - rl.windowMs
  if rl.maxRequests ≤ kept.length then (false, setTimes st id kept)
  else (true, setTimes st id (kept ++ [now]))

/-- A sequence of isAllowed calls for one identity at the given clock
readings, returning the verdicts in order and the final state. -/
def runCalls (rl : RateLimiter) (id : String) (times : List Int) (st : RLState) :
    List Bool × RLState :=
  match times with
  | [] => ([], st)
  | t :: ts =>
    let r1 := rl.isAllowed st id t
    let r2 := runCalls rl id ts r1.2
    (r1.1 :: r2.1, r2.2)

/-- The outcome of the single outbound fetch, abstracting the network:
a network-level rejection, an abort by the timeout race, or a response
with a status code and a body that either parses as JSON or does not. -/
inductive FetchOutcome where
  | netError : FetchOutcome
  | timeout : FetchOutcome
  | response : Nat → Option JSVal → FetchOutcome

/-- JS truthiness of the optional auth token string. -/
def tokenTruthy : Option String → Bool
  | none => false
  | some s => !(s == "")

/-- The client identity derived in makeCourtListenerRequest: the token
prefix of the first 8 characters, or the literal anonymous. -/
def clientIdOf (authToken : Option String) : String :=
  if tokenTruthy authToken then "token:" ++ (authToken.getD "").take 8 else "anonymous"

/-- makeCourtListenerRequest from src/src/index.ts, with the network
abstracted as a FetchOutcome oracle and the clock passed explicitly.
The function is total: every failure branch (invalid token format,
local rate limit, network error, timeout, non-2xx status, unparseable
body) returns the none sentinel rather than raising; the try/catch of
the source is the totality of this definition.  The sanitized query
parameters are computed exactly as in the source (they flow into the
request URL, which the oracle abstracts away). -/
def makeCourtListenerRequest (params : List (String × JSVal)) (authToken : Option String)
    (st : RLState) (now : Int) (net : FetchOutcome) : Option JSVal × RLState :=
  if tokenTruthy authToken && !validateApiToken authToken then (none, st)
  else
    let clientId := clientIdOf authToken
    let gate := (RateLimiter.mk 100 60000).isAllowed st clientId now
    if !gate.1 then (none, gate.2)
    else
      let _queryParams :=
        (validateAndSanitizeParams params).filter fun kv => !(kv.2 == "")
      match net with
      | .netError => (none, gate.2)
      | .timeout => (none, gate.2)
      | .response status body =>
        if !(200 ≤ status && status ≤ 299) then (none, gate.2)
        else
          match body with
          | none => (none, gate.2)
          | some data => (some (normalizeApiResponse data), gate.2)

/-- A string on which every removal pass of sanitizeString finds
nothing: no dangerous character, no case-insensitive occurrence of the
three protocol substrings, no event-handler pattern, and no
case-insensitive occurrence of the four redaction stems (a match of
stem-followed-by-digits exists exactly when the stem occurs, since the
digits part may be empty). -/
def passFree (l : List Char) : Bool :=
  l.all (fun c => !isDangerousChar c) &&
  !ciContains "javascript:".data l &&
  !ciContains "data:".data l &&
  !ciContains "vbscript:".data l &&
  !hasOnPat l &&
  !ciContains "password".data l &&
  !ciContains "secret".data l &&
  !ciContains "token".data l &&
  !ciContains "key".data l

/-- The parameter record of testable property P6 of the spec. -/
def paramsP6 : List (String × JSVal) :=
  [("a", .str "x<y"), ("b", .num (.int 3)), ("c", .bool true), ("d", .null),
   ("e", .undef), ("f", .arr [.num (.int 1), .num (.int 2)]),
   ("g", .obj [("h", .num (.int 1))])]

/-! ### Lemmas about the sanitization scanner -/

theorem mem_removeAllCIAux (pat : List Char) :
    ∀ (l : List Char) (skip : Nat) (c : Char), c ∈ removeAllCIAux pat l skip → c ∈ l := by
  intro l
  induction l with
  | nil => intro skip c h; simp [removeAllCIAux] at h
  | cons a cs ih =>
    intro skip c h
    cases skip with
    | succ k =>
      simp only [removeAllCIAux] at h
      exact List.mem_cons_of_mem a (ih k c h)
    | zero =>
      simp only [removeAllCIAux] at h
      split at h
      · exact List.mem_cons_of_mem a (ih _ c h)
      · rcases List.mem_cons.mp h with h1 | h1
        · exact List.mem_cons.mpr (Or.inl h1)
        · exact List.mem_cons_of_mem a (ih 0 c h1)

theorem mem_removeOnPatAux :
    ∀ (l : List Char) (skip : Nat) (c : Char), c ∈ removeOnPatAux l skip → c ∈ l := by
  intro l
  induction l with
  | nil => intro skip c h; simp [removeOnPatAux] at h
  | cons a cs ih =>
    intro skip c h
    cases skip with
    | succ k =>
      simp only [removeOnPatAux] at h
      exact List.mem_cons_of_mem a (ih k c h)
    | zero =>
      simp only [removeOnPatAux] at h
      split at h
      · exact List.mem_cons_of_mem a (ih _ c h)
      · rcases List.mem_cons.mp h with h1 | h1
        · exact List.mem_cons.mpr (Or.inl h1)
        · exact List.mem_cons_of_mem a (ih 0 c h1)

theorem mem_redactAux (pat : List Char) :
    ∀ (l : List Char) (skip : Nat) (c : Char),
      c ∈ redactAux pat l skip → c ∈ l ∨ c ∈ "[REDACTED]".data := by
  intro l
  induction l with
  | nil => intro skip c h; simp [redactAux] at h
  | cons a cs ih =>
    intro skip c h
    cases skip with
    | succ k =>
      simp only [redactAux] at h
      rcases ih k c h with h1 | h1
      · exact Or.inl (List.mem_cons_of_mem a h1)
      · exact Or.inr h1
    | zero =>
      simp only [redactAux] at h
      split at h
      · rcases List.mem_append.mp h with h1 | h1
        · exact Or.inr h1
        · rcases ih _ c h1 with h2 | h2
          · exact Or.inl (List.mem_cons_of_mem a h2)
          · exact Or.inr h2
      · rcases List.mem_cons.mp h with h1 | h1
        · exact Or.inl (List.mem_cons.mpr (Or.inl h1))
        · rcases ih 0 c h1 with h2 | h2
          · exact Or.inl (List.mem_cons_of_mem a h2)
          · exact Or.inr h2

theorem mem_takeUtf16 :
    ∀ (l : List Char) (n : Nat) (c : Char), c ∈ takeUtf16 n l → c ∈ l := by
  intro l
  induction l with
  | nil => intro n c h; simp [takeUtf16] at h
  | cons a cs ih =>
    intro n c h
    simp only [takeUtf16] at h
    split at h
    · rcases List.mem_cons.mp h with h1 | h1
      · exact List.mem_cons.mpr (Or.inl h1)
      · exact List.mem_cons_of_mem a (ih _ c h1)
    · simp at h

theorem utf16Len_cons (a : Char) (l : List Char) :
    utf16Len (a :: l) = utf16Units a + utf16Len l := by
  simp [utf16Len]

theorem utf16Len_takeUtf16_le :
    ∀ (l : List Char) (n : Nat), utf16Len (takeUtf16 n l) ≤ n := by
  intro l
  induction l with
  | nil => intro n; simp [takeUtf16, utf16Len]
  | cons a cs ih =>
    intro n
    simp only [takeUtf16]
    split
    · rw [utf16Len_cons]
      have h2 := ih (n - utf16Units a)
      omega
    · simp [utf16Len]

theorem removeAllCIAux_id (pat : List Char) :
    ∀ (l : List Char), ciContains pat l = false → removeAllCIAux pat l 0 = l := by
  intro l
  induction l with
  | nil => intro _; simp [removeAllCIAux]
  | cons a cs ih =>
    intro h
    simp only [ciContains, Bool.or_eq_false_iff] at h
    simp only [removeAllCIAux, h.1, Bool.false_eq_true, if_false]
    rw [ih h.2]

theorem removeOnPatAux_id :
    ∀ (l : List Char), hasOnPat l = false → removeOnPatAux l 0 = l := by
  intro l
  induction l with
  | nil => intro _; simp [removeOnPatAux]
  | cons a cs ih =>
    intro h
    simp only [hasOnPat, Bool.or_eq_false_iff] at h
    have hn : onMatchLen (a :: cs) = none := by
      rcases h with ⟨h1, _⟩
      exact Option.not_isSome_iff_eq_none.mp (by simp [h1])
    simp only [removeOnPatAux, hn]
    rw [ih h.2]

theorem redactAux_id (pat : List Char) :
    ∀ (l : List Char), ciContains pat l = false → redactAux pat l 0 = l := by
  intro l
  induction l with
  | nil => intro _; simp [redactAux]
  | cons a cs ih =>
    intro h
    simp only [ciContains, Bool.or_eq_false_iff] at h
    simp only [redactAux, h.1, Bool.false_eq_true, if_false]
    rw [ih h.2]

theorem takeUtf16_id :
    ∀ (l : List Char) (n : Nat), utf16Len l ≤ n → takeUtf16 n l = l := by
  intro l
  induction l with
  | nil => intro n _; simp [takeUtf16]
  | cons a cs ih =>
    intro n h
    rw [utf16Len_cons] at h
    have h1 : utf16Units a ≤ n := by omega
    simp only [takeUtf16, if_pos h1]
    rw [ih (n - utf16Units a) (by omega)]

theorem removeAllCI_id {pat l : List Char} (h : ciContains pat l = false) :
    removeAllCI pat l = l :=
  removeAllCIAux_id pat l h

theorem removeOnPat_id {l : List Char} (h : hasOnPat l = false) :
    removeOnPat l = l :=
  removeOnPatAux_id l h

theorem redact_id {pat l : List Char} (h : ciContains pat l = false) :
    redact pat l = l :=
  redactAux_id pat l h

theorem sanitize_chars (s : String) (c : Char) (h : c ∈ (sanitizeString s).data) :
    isDangerousChar c = false := by
  have hred : ∀ d ∈ "[REDACTED]".data, isDangerousChar d = false := by decide
  have h0 : c ∈ takeUtf16 1000
      (redact "key".data
        (redact "token".data
          (redact "secret".data
            (redact "password".data
              (removeOnPat
                (removeAllCI "vbscript:".data
                  (removeAllCI "data:".data
                    (removeAllCI "javascript:".data
                      ((s.data.filter fun c => !isDangerousChar c)))))))))) := h
  have h1 := mem_takeUtf16 _ _ _ h0
  rcases mem_redactAux _ _ _ _ h1 with h2 | h2
  case inr => exact hred c h2
  rcases mem_redactAux _ _ _ _ h2 with h3 | h3
  case inr => exact hred c h3
  rcases mem_redactAux _ _ _ _ h3 with h4 | h4
  case inr => exact hred c h4
  rcases mem_redactAux _ _ _ _ h4 with h5 | h5
  case inr => exact hred c h5
  have h6 := mem_removeOnPatAux _ _ _ h5
  have h7 := mem_removeAllCIAux _ _ _ _ h6
  have h8 := mem_removeAllCIAux _ _ _ _ h7
  have h9 := mem_removeAllCIAux _ _ _ _ h8
  have h10 := List.mem_filter.mp h9
  simpa using h10.2

theorem sanitize_len (s : String) : utf16Len (sanitizeString s).data ≤ 1000 :=
  utf16Len_takeUtf16_le _ 1000

theorem sanitize_fixed (l : List Char) (hp : passFree l = true)
    (hlen : utf16Len l ≤ 1000) : sanitizeString (String.mk l) = String.mk l := by
  simp only [passFree, Bool.and_eq_true, Bool.not_eq_true'] at hp
  obtain ⟨⟨⟨⟨⟨⟨⟨⟨hall, hjs⟩, hdat⟩, hvb⟩, hon⟩, hpw⟩, hsec⟩, htok⟩, hkey⟩ := hp
  have hfil : l.filter (fun c => !isDangerousChar c) = l :=
    List.filter_eq_self.mpr (by simpa [List.all_eq_true] using hall)
  show String.mk (takeUtf16 1000 _) = String.mk l
  rw [show (String.mk l).data = l from rfl, hfil, removeAllCI_id hjs,
    removeAllCI_id hdat, removeAllCI_id hvb, removeOnPat_id hon, redact_id hpw,
    redact_id hsec, redact_id htok, redact_id hkey, takeUtf16_id l 1000 hlen]

/-! ### Claims about sanitizeString -/

/-- C1 counterexample: the claim says the output of sanitizeString never
contains a case-insensitive javascript:, data: or vbscript: substring
nor an event-handler pattern, but each single-pass removal can
reassemble exactly such a substring from the pieces it leaves behind,
and no later pass removes it. -/
theorem C1_counterexample :
    ciContains "javascript:".data (sanitizeString "javasonx=cript:").data = true ∧
    ciContains "data:".data (sanitizeString "daonx=ta:").data = true ∧
    ciContains "vbscript:".data (sanitizeString "vbonx=script:").data = true ∧
    hasOnPat (sanitizeString "oonabc=nabc=").data = true := by
  decide

/-- C1 amended: for every input string, sanitizeString produces a string
containing none of the characters less-than, greater-than, double quote,
single quote and ampersand, of length at most 1000 UTF-16 code units.
(The banned-substring part of the claim fails: each protocol or
event-handler pattern is only removed in one left-to-right pass, which
can reassemble a new occurrence.) -/
theorem C1_sanitize_safe (s : String) :
    (∀ c ∈ (sanitizeString s).data, isDangerousChar c = false) ∧
    utf16Len (sanitizeString s).data ≤ 1000 :=
  ⟨fun c hc => sanitize_chars s c hc, sanitize_len s⟩

/-- C1 witness: the amended theorem applied at a concrete input. -/
theorem C1_witness :
    isDangerousChar 'a' = false ∧ utf16Len (sanitizeString "a<b").data ≤ 1000 :=
  ⟨(C1_sanitize_safe "a<b").1 'a' (by decide), (C1_sanitize_safe "a<b").2⟩

/-- C5 counterexample: sanitizeString is not idempotent.  On the input
jjavascript:avascript: (16 code units, far below the 1000 ceiling) one
pass yields javascript: and a second pass yields the empty string. -/
theorem C5_counterexample :
    sanitizeString (sanitizeString "jjavascript:avascript:")
      ≠ sanitizeString "jjavascript:avascript:" := by
  decide

/-- C5 amended: sanitizeString is idempotent on exactly those inputs
whose one-pass output is free of every removal pattern (no dangerous
character, no case-insensitive protocol substring, no event-handler
pattern, no redaction stem); the length ceiling needs no extra
hypothesis since one pass always truncates to 1000 code units. -/
theorem C5_sanitize_idem (x : String)
    (h : passFree (sanitizeString x).data = true) :
    sanitizeString (sanitizeString x) = sanitizeString x := by
  have h2 := sanitize_fixed (sanitizeString x).data h (sanitize_len x)
  rwa [show String.mk (sanitizeString x).data = sanitizeString x from rfl] at h2

/-- C5 witness: the amended theorem applied at a concrete input. -/
theorem C5_witness :
    passFree (sanitizeString "hello world").data = true ∧
    sanitizeString (sanitizeString "hello world") = sanitizeString "hello world" :=
  ⟨by decide, C5_sanitize_idem "hello world" (by decide)⟩

/-- C9: the redaction passes replace each stem password, secret, token,
key followed by zero or more digits with the marker, case-insensitively,
with no trailing digits required and even inside an unrelated word: the
benign input monkey comes out as mon[REDACTED]. -/
theorem C9_redaction :
    sanitizeString "monkey" = "mon[REDACTED]" ∧
    sanitizeString "password" = "[REDACTED]" ∧
    sanitizeString "Secret42" = "[REDACTED]" ∧
    sanitizeString "token" = "[REDACTED]" ∧
    sanitizeString "KEY7" = "[REDACTED]" ∧
    sanitizeString "key1 and PASSWORD99" = "[REDACTED] and [REDACTED]" := by
  decide

/-! ### Claims about validateApiToken -/

/-- C6: validateApiToken accepts an absent or empty credential, and a
present non-empty credential exactly when it is 40 lowercase
hexadecimal characters; it is a total boolean function. -/
theorem C6_validate_token :
    validateApiToken none = true ∧
    validateApiToken (some "") = true ∧
    ∀ s : String, s ≠ "" →
      (validateApiToken (some s) = true ↔
        (s.length = 40 ∧ ∀ c ∈ s.data, isLowerHexChar c = true)) := by
  refine ⟨rfl, rfl, fun s hs => ?_⟩
  simp [validateApiToken, if_neg hs, List.all_eq_true]

/-- C6 witness: the characterization applied at 40 repeated a
characters, which the claim requires to be accepted. -/
theorem C6_witness :
    validateApiToken (some "aaaaaaaaaaaaaaaaaaaaaaaaaaaaaaaaaaaaaaaa") = true :=
  (C6_validate_token.2.2 "aaaaaaaaaaaaaaaaaaaaaaaaaaaaaaaaaaaaaaaa" (by decide)).mpr
    ⟨by decide, by decide⟩

/-! ### Lemmas about the rate limiter -/

theorem dropWhile_eq_self_of {α : Type} (p : α → Bool) (l : List α)
    (h : ∀ a ∈ l, p a = false) : l.dropWhile p = l := by
  cases l with
  | nil => rfl
  | cons a as => simp [List.dropWhile_cons, h a (List.mem_cons_self a as)]

theorem dropWhile_eq_nil_of {α : Type} (p : α → Bool) (l : List α)
    (h : ∀ a ∈ l, p a = true) : l.dropWhile p = [] := by
  induction l with
  | nil => rfl
  | cons a as ih =>
    simp [List.dropWhile_cons, h a (List.mem_cons_self a as),
      ih fun a ha => h a (List.mem_cons_of_mem _ ha)]

theorem setTimes_same (st : RLState) (id : String) (l : List Int) :
    setTimes st id l id = l := by
  simp [setTimes]

theorem setTimes_ne (st : RLState) (id : String) (l : List Int) (k : String)
    (h : k ≠ id) : setTimes st id l k = st k := by
  simp [setTimes, h]

theorem setTimes_collapse (st : RLState) (id : String) (l1 l2 : List Int) :
    setTimes (setTimes st id l1) id l2 = setTimes st id l2 := by
  funext k
  by_cases h : k = id <;> simp [setTimes, h]

theorem setTimes_self (st : RLState) (id : String) (l : List Int)
    (h : st id = l) : setTimes st id l = st := by
  funext k
  by_cases hk : k = id
  · subst hk; simp [setTimes, h]
  · simp [setTimes, hk]

/-- Admitted calls: starting from a state whose list for this identity
is acc, a sequence of calls that together with acc fits under the
request ceiling and stays inside the window is admitted in full, each
call recording its timestamp. -/
theorem runCalls_admits (rl : RateLimiter) (id : String) :
    ∀ (times acc : List Int) (st : RLState),
      st id = acc →
      acc.length + times.length ≤ rl.maxRequests →
      (∀ a ∈ acc, ∀ t ∈ times, ¬ (a < t - rl.windowMs)) →
      (∀ t1 ∈ times, ∀ t2 ∈ times, ¬ (t1 < t2 - rl.windowMs)) →
      runCalls rl id times st
        = (List.replicate times.length true, setTimes st id (acc ++ times)) := by
  intro times
  induction times with
  | nil =>
    intro acc st hacc _ _ _
    simp only [runCalls, List.length_nil, List.replicate_zero, List.append_nil]
    rw [setTimes_self st id acc hacc]
  | cons t ts ih =>
    intro acc st hacc hlen hcross hwin
    have hdrop : acc.dropWhile (fun a => decide (a < t - rl.windowMs)) = acc :=
      dropWhile_eq_self_of _ _ fun a ha =>
        decide_eq_false (hcross a ha t (List.mem_cons_self t ts))
    have hlt : ¬ (rl.maxRequests ≤ acc.length) := by
      simp only [List.length_cons] at hlen
      omega
    have hstep : rl.isAllowed st id t = (true, setTimes st id (acc ++ [t])) := by
      simp only [RateLimiter.isAllowed, hacc, hdrop, if_neg hlt]
    have hcross2 : ∀ a ∈ acc ++ [t], ∀ t2 ∈ ts, ¬ (a < t2 - rl.windowMs) := by
      intro a ha t2 ht2
      rcases List.mem_append.mp ha with h1 | h1
      · exact hcross a h1 t2 (List.mem_cons_of_mem t ht2)
      · have hat : a = t := by simpa using h1
        subst hat
        exact hwin a (List.mem_cons_self a ts) t2 (List.mem_cons_of_mem a ht2)
    have hwin2 : ∀ t1 ∈ ts, ∀ t2 ∈ ts, ¬ (t1 < t2 - rl.windowMs) := fun t1 h1 t2 h2 =>
      hwin t1 (List.mem_cons_of_mem t h1) t2 (List.mem_cons_of_mem t h2)
    have ihapp := ih (acc ++ [t]) (setTimes st id (acc ++ [t]))
      (setTimes_same st id (acc ++ [t]))
      (by simp only [List.length_append, List.length_cons] at hlen ⊢; simp; omega)
      hcross2 hwin2
    simp only [runCalls, hstep, ihapp]
    simp [setTimes_collapse, List.replicate_succ]

/-! ### Claims about the rate limiter -/

set_option maxRecDepth 100000 in
/-- C3 counterexample: the claim says that once at least windowMs
(60000 ms) have elapsed past the oldest recorded timestamp the next
call is admitted because everything has been evicted; but eviction is
strict (timestamp < now - windowMs), so after 100 admitted calls at
time 0 a call at time 60000 - exactly 60000 ms past the oldest - still
finds all 100 timestamps in the window and is rejected. -/
theorem C3_counterexample :
    (RateLimiter.isAllowed ⟨100, 60000⟩
      (runCalls ⟨100, 60000⟩ "c" (List.replicate 100 0) initState).2 "c" 60000).1
      = false := by
  decide

/-- C3 amended: with maxRequests 100 and windowMs 60000, 100 calls for
one identity whose clock readings stay pairwise inside the window are
all admitted and recorded; a 101st call still inside the window is
rejected and records nothing; and a call whose clock reading is
strictly more than windowMs past every recorded timestamp is admitted
again because all of them are evicted. -/
theorem C3_rate_window (id : String) (times : List Int) (tReject tNext : Int)
    (hlen : times.length = 100)
    (hwin : ∀ t1 ∈ times, ∀ t2 ∈ times, ¬ (t1 < t2 - 60000))
    (hrej : ∀ t ∈ times, ¬ (t < tReject - 60000))
    (hnext : ∀ t ∈ times, t < tNext - 60000) :
    (runCalls ⟨100, 60000⟩ id times initState).1 = List.replicate 100 true ∧
    (runCalls ⟨100, 60000⟩ id times initState).2 id = times ∧
    (RateLimiter.isAllowed ⟨100, 60000⟩
      (runCalls ⟨100, 60000⟩ id times initState).2 id tReject).1 = false ∧
    (RateLimiter.isAllowed ⟨100, 60000⟩
      (runCalls ⟨100, 60000⟩ id times initState).2 id tReject).2 id = times ∧
    (RateLimiter.isAllowed ⟨100, 60000⟩
      (RateLimiter.isAllowed ⟨100, 60000⟩
        (runCalls ⟨100, 60000⟩ id times initState).2 id tReject).2 id tNext).1 = true := by
  have hrun := runCalls_admits ⟨100, 60000⟩ id times [] initState rfl
    (by simp [hlen]) (by simp) hwin
  rw [hrun]
  simp only [List.nil_append]
  have hstid : setTimes initState id times id = times := setTimes_same _ _ _
  have hdropR : times.dropWhile (fun a => decide (a < tReject - (60000 : Int))) = times :=
    dropWhile_eq_self_of _ _ fun a ha => decide_eq_false (hrej a ha)
  have hfull : (100 : Nat) ≤ times.length := by omega
  have hrejeq : RateLimiter.isAllowed ⟨100, 60000⟩ (setTimes initState id times) id tReject
      = (false, setTimes (setTimes initState id times) id times) := by
    simp only [RateLimiter.isAllowed, hstid, hdropR, if_pos hfull]
  have hdropN : times.dropWhile (fun a => decide (a < tNext - (60000 : Int))) = [] :=
    dropWhile_eq_nil_of _ _ fun a ha => decide_eq_true (hnext a ha)
  refine ⟨by rw [hlen], hstid, ?_, ?_, ?_⟩
  · rw [hrejeq]
  · rw [hrejeq]
    simp [setTimes_collapse, setTimes_same]
  · rw [hrejeq]
    simp only [setTimes_collapse]
    simp only [RateLimiter.isAllowed, setTimes_same, hdropN]
    simp

/-- C3 witness: the amended theorem applied at 100 calls at clock 0,
a rejected call at clock 60000 and an admitted call at clock 60001. -/
theorem C3_witness :
    (runCalls ⟨100, 60000⟩ "c" (List.replicate 100 0) initState).1
      = List.replicate 100 true ∧
    (runCalls ⟨100, 60000⟩ "c" (List.replicate 100 0) initState).2 "c"
      = List.replicate 100 0 ∧
    (RateLimiter.isAllowed ⟨100, 60000⟩
      (runCalls ⟨100, 60000⟩ "c" (List.replicate 100 0) initState).2 "c" 60000).1 = false ∧
    (RateLimiter.isAllowed ⟨100, 60000⟩
      (runCalls ⟨100, 60000⟩ "c" (List.replicate 100 0) initState).2 "c" 60000).2 "c"
      = List.replicate 100 0 ∧
    (RateLimiter.isAllowed ⟨100, 60000⟩
      (RateLimiter.isAllowed ⟨100, 60000⟩
        (runCalls ⟨100, 60000⟩ "c" (List.replicate 100 0) initState).2 "c" 60000).2
      "c" 60001).1 = true :=
  C3_rate_window "c" (List.replicate 100 0) 60000 60001 (by decide)
    (by decide) (by decide) (by decide)

theorem isAllowed_frame (rl : RateLimiter) (st : RLState) (a b : String)
    (now : Int) (h : b ≠ a) : (rl.isAllowed st a now).2 b = st b := by
  simp only [RateLimiter.isAllowed]
  split <;> simp [setTimes_ne _ _ _ _ h]

theorem runCalls_frame (rl : RateLimiter) (a b : String) (h : b ≠ a) :
    ∀ (times : List Int) (st : RLState), (runCalls rl a times st).2 b = st b := by
  intro times
  induction times with
  | nil => intro st; rfl
  | cons t ts ih =>
    intro st
    simp only [runCalls]
    rw [ih, isAllowed_frame rl st a b t h]

/-- C8: an isAllowed call for one identity leaves every other identity
untouched, in any state; in particular after any number of calls for
identity a from a fresh limiter (including the 100 that exhaust its
quota), the first call for a different identity b is still admitted. -/
theorem C8_isolation (a b : String) (h : a ≠ b) :
    (∀ (rl : RateLimiter) (st : RLState) (now : Int),
      (rl.isAllowed st a now).2 b = st b) ∧
    (∀ (times : List Int) (t : Int),
      (RateLimiter.isAllowed ⟨100, 60000⟩
        (runCalls ⟨100, 60000⟩ a times initState).2 b t).1 = true) := by
  constructor
  · intro rl st now
    exact isAllowed_frame rl st a b now (Ne.symm h)
  · intro times t
    have hb : (runCalls ⟨100, 60000⟩ a times initState).2 b = [] :=
      runCalls_frame ⟨100, 60000⟩ a b (Ne.symm h) times initState
    simp [RateLimiter.isAllowed, hb]

/-- C8 witness: identity A exhausts its quota with 100 calls at clock 0
and identity B is still admitted. -/
theorem C8_witness :
    (RateLimiter.isAllowed ⟨100, 60000⟩
      (runCalls ⟨100, 60000⟩ "A" (List.replicate 100 0) initState).2 "B" 0).1 = true :=
  (C8_isolation "A" "B" (by decide)).2 (List.replicate 100 0) 0

/-! ### Lemmas about normalizeApiResponse -/

theorem jsGet_obj (fields : List (String × JSVal)) (k : String) :
    jsGet (.obj fields) k = getField fields k := rfl

theorem getField_cons (k1 : String) (v1 : JSVal) (rest : List (String × JSVal))
    (k : String) :
    getField ((k1, v1) :: rest) k = if k1 == k then some v1 else getField rest k := by
  by_cases h : (k1 == k) = true
  · rw [if_pos h]
    show (List.find? (fun kv => kv.1 == k) ((k1, v1) :: rest)).map (fun kv => kv.2)
      = some v1
    rw [@List.find?_cons_of_pos _ (fun kv => kv.1 == k) (k1, v1) rest h]
    rfl
  · rw [if_neg h]
    show (List.find? (fun kv => kv.1 == k) ((k1, v1) :: rest)).map (fun kv => kv.2)
      = getField rest k
    rw [@List.find?_cons_of_neg _ (fun kv => kv.1 == k) (k1, v1) rest h]
    rfl

theorem getField_setField_self (fields : List (String × JSVal)) (k : String) (v : JSVal) :
    getField (setField fields k v) k = some v := by
  induction fields with
  | nil =>
    rw [show setField [] k v = [(k, v)] from rfl, getField_cons]
    simp
  | cons kv rest ih =>
    obtain ⟨k1, v1⟩ := kv
    by_cases h : (k1 == k) = true
    · simp only [setField, if_pos h, getField_cons]
      simp
    · simp only [setField, if_neg h, getField_cons, h, Bool.false_eq_true, if_false]
      exact ih

theorem getField_setField_ne (fields : List (String × JSVal)) (k k' : String) (v : JSVal)
    (h : k' ≠ k) : getField (setField fields k v) k' = getField fields k' := by
  have hkk : (k == k') = false := beq_eq_false_iff_ne.mpr fun he => h he.symm
  induction fields with
  | nil =>
    rw [show setField [] k v = [(k, v)] from rfl, getField_cons, if_neg (by simp [hkk])]
  | cons kv rest ih =>
    obtain ⟨k1, v1⟩ := kv
    by_cases hk : (k1 == k) = true
    · have he : k1 = k := by simpa using hk
      subst he
      simp only [setField, if_pos hk, getField_cons, hkk, Bool.false_eq_true, if_false]
    · simp only [setField, if_neg hk, getField_cons]
      by_cases hk' : (k1 == k') = true
      · simp only [if_pos hk']
      · simp only [hk', Bool.false_eq_true, if_false]
        exact ih

theorem getField_normLinkField_ne (fields : List (String × JSVal)) (k k' : String)
    (h : k' ≠ k) : getField (normLinkField fields k) k' = getField fields k' := by
  unfold normLinkField
  split
  · rfl
  · rfl
  · exact getField_setField_ne fields k k' .null h

theorem getField_normLinkField_self (fields : List (String × JSVal)) (k : String) :
    getField (normLinkField fields k) k = some .null ∨
    ∃ s, getField (normLinkField fields k) k = some (.str s) := by
  rcases hk : getField fields k with _ | v
  · left; simp [normLinkField, hk, getField_setField_self]
  · cases v with
    | null => left; simp [normLinkField, hk]
    | str s => right; exact ⟨s, by simp [normLinkField, hk]⟩
    | undef => left; simp [normLinkField, hk, getField_setField_self]
    | bool b => left; simp [normLinkField, hk, getField_setField_self]
    | num n => left; simp [normLinkField, hk, getField_setField_self]
    | arr xs => left; simp [normLinkField, hk, getField_setField_self]
    | obj fs => left; simp [normLinkField, hk, getField_setField_self]

/-! ### Claims about normalizeApiResponse -/

/-- C2 counterexample: the claim says a numeric-string count is parsed
to its numeric value, so count "7" with 2 results would normalize to 7;
the code never parses strings and falls back to results.length, giving 2. -/
theorem C2_counterexample :
    jsGet (normalizeApiResponse
      (.obj [("count", .str "7"), ("results", .arr [.null, .null])])) "count"
      = some (.num (.int 2)) ∧
    jsGet (normalizeApiResponse
      (.obj [("count", .str "7"), ("results", .arr [.null, .null])])) "count"
      ≠ some (.num (.int 7)) := by
  refine ⟨rfl, fun h => ?_⟩
  have h2 : some (JSVal.num (.int 2)) = some (JSVal.num (.int 7)) := h
  injection h2 with h3
  injection h3 with h4
  injection h4 with h5
  exact absurd h5 (by decide)

/-- C2 amended: on a body with a results array, count is kept when it is
a non-NaN non-negative number, and is replaced by results.length when it
is a string (numeric or not - strings are never parsed), missing, NaN,
or negative; next and previous always come out as null or a string. -/
theorem C2_normalize (fields : List (String × JSVal)) (results : List JSVal)
    (hres : getField fields "results" = some (.arr results)) :
    (∀ n : Int, 0 ≤ n → getField fields "count" = some (.num (.int n)) →
      jsGet (normalizeApiResponse (.obj fields)) "count" = some (.num (.int n))) ∧
    (∀ s : String, getField fields "count" = some (.str s) →
      jsGet (normalizeApiResponse (.obj fields)) "count"
        = some (.num (.int results.length))) ∧
    (getField fields "count" = none →
      jsGet (normalizeApiResponse (.obj fields)) "count"
        = some (.num (.int results.length))) ∧
    (getField fields "count" = some (.num .nan) →
      jsGet (normalizeApiResponse (.obj fields)) "count"
        = some (.num (.int results.length))) ∧
    (∀ n : Int, n < 0 → getField fields "count" = some (.num (.int n)) →
      jsGet (normalizeApiResponse (.obj fields)) "count"
        = some (.num (.int results.length))) ∧
    (jsGet (normalizeApiResponse (.obj fields)) "next" = some .null ∨
      ∃ s, jsGet (normalizeApiResponse (.obj fields)) "next" = some (.str s)) ∧
    (jsGet (normalizeApiResponse (.obj fields)) "previous" = some .null ∨
      ∃ s, jsGet (normalizeApiResponse (.obj fields)) "previous" = some (.str s)) := by
  have hnorm : normalizeApiResponse (.obj fields)
      = .obj (normLinkField (normLinkField (normCountField fields results) "next")
          "previous") := by
    simp [normalizeApiResponse, hres]
  have hpeel : ∀ fs : List (String × JSVal),
      getField (normLinkField (normLinkField fs "next") "previous") "count"
        = getField fs "count" := fun fs => by
    rw [getField_normLinkField_ne _ _ _ (by decide),
      getField_normLinkField_ne _ _ _ (by decide)]
  refine ⟨?_, ?_, ?_, ?_, ?_, ?_, ?_⟩
  · intro n hn hc
    rw [hnorm, jsGet_obj, hpeel]
    simp [normCountField, hc, if_neg (by omega : ¬ n < 0)]
  · intro s hc
    rw [hnorm, jsGet_obj, hpeel]
    simp [normCountField, hc, getField_setField_self]
  · intro hc
    rw [hnorm, jsGet_obj, hpeel]
    simp [normCountField, hc, getField_setField_self]
  · intro hc
    rw [hnorm, jsGet_obj, hpeel]
    simp [normCountField, hc, getField_setField_self]
  · intro n hn hc
    rw [hnorm, jsGet_obj, hpeel]
    simp [normCountField, hc, if_pos hn, getField_setField_self]
  · have hne : getField (normLinkField (normLinkField (normCountField fields results)
        "next") "previous") "next"
        = getField (normLinkField (normCountField fields results) "next") "next" :=
      getField_normLinkField_ne _ _ _ (by decide)
    rw [hnorm]
    simp only [jsGet_obj, hne]
    exact getField_normLinkField_self _ "next"
  · rw [hnorm]
    simp only [jsGet_obj]
    exact getField_normLinkField_self _ "previous"

/-- C2 witness: a valid non-negative count of 5 with one result is kept. -/
theorem C2_witness :
    jsGet (normalizeApiResponse
      (.obj [("count", .num (.int 5)), ("results", .arr [.null])])) "count"
      = some (.num (.int 5)) :=
  (C2_normalize [("count", .num (.int 5)), ("results", .arr [.null])] [.null] rfl).1
    5 (by decide) rfl

/-! ### Claims about validateAndSanitizeParams -/

theorem vasp_keys_sublist (params : List (String × JSVal)) :
    ((validateAndSanitizeParams params).map Prod.fst).Sublist (params.map Prod.fst) := by
  induction params with
  | nil => simp [validateAndSanitizeParams]
  | cons kv rest ih =>
    simp only [validateAndSanitizeParams, List.filterMap_cons, List.map_cons]
    cases h : sanitizeParamEntry kv.2 with
    | none =>
      simp only [Option.map_none']
      exact List.Sublist.cons kv.1 ih
    | some s =>
      simp only [Option.map_some', List.map_cons]
      exact List.Sublist.cons₂ kv.1 ih

theorem keyval_unique (params : List (String × JSVal))
    (hnd : (params.map Prod.fst).Nodup) (k : String) (v v' : JSVal)
    (h1 : (k, v) ∈ params) (h2 : (k, v') ∈ params) : v = v' := by
  induction params with
  | nil => cases h1
  | cons kv rest ih =>
    simp only [List.map_cons, List.nodup_cons] at hnd
    rcases List.mem_cons.mp h1 with e1 | m1
    · rcases List.mem_cons.mp h2 with e2 | m2
      · exact congrArg Prod.snd (e1.trans e2.symm)
      · exfalso
        apply hnd.1
        rw [← e1]
        exact List.mem_map.mpr ⟨(k, v'), m2, rfl⟩
    · rcases List.mem_cons.mp h2 with e2 | m2
      · exfalso
        apply hnd.1
        rw [← e2]
        exact List.mem_map.mpr ⟨(k, v), m1, rfl⟩
      · exact ih hnd.2 m1 m2

/-- C7: every undefined, null, array or object valued key is omitted
entirely; string values come out sanitized, numbers and booleans come
out stringified; and the admitted keys are distinct, so every admitted
key appears exactly once.  Keys of the input record are distinct, as in
any JS object. -/
theorem C7_sanitize_params (params : List (String × JSVal))
    (hnd : (params.map Prod.fst).Nodup) :
    ((validateAndSanitizeParams params).map Prod.fst).Nodup ∧
    ∀ k v, (k, v) ∈ params →
      ((v = .undef ∨ v = .null ∨ (∃ xs, v = .arr xs) ∨ (∃ fs, v = .obj fs)) →
        k ∉ (validateAndSanitizeParams params).map Prod.fst) ∧
      (∀ s, v = .str s → (k, sanitizeString s) ∈ validateAndSanitizeParams params) ∧
      (∀ n, v = .num n → (k, jsNumToString n) ∈ validateAndSanitizeParams params) ∧
      (∀ b, v = .bool b →
        (k, if b then "true" else "false") ∈ validateAndSanitizeParams params) := by
  refine ⟨(vasp_keys_sublist params).nodup hnd, ?_⟩
  intro k v hmem
  refine ⟨?_, ?_, ?_, ?_⟩
  · intro hbad hin
    rcases List.mem_map.mp hin with ⟨⟨k2, s⟩, hks, hfst⟩
    rcases List.mem_filterMap.mp hks with ⟨⟨k3, v3⟩, hm3, hf3⟩
    obtain ⟨s3, hs3, heq⟩ := Option.map_eq_some'.mp hf3
    injection heq with hk3 hs'
    have hk2 : k2 = k := hfst
    have hk3' : k3 = k2 := hk3
    have hm3' : (k, v3) ∈ params := by rw [hk3', hk2] at hm3; exact hm3
    have hv3 : v3 = v := keyval_unique params hnd k v3 v hm3' hmem
    rw [hv3] at hs3
    rcases hbad with h | h | ⟨xs, h⟩ | ⟨fs, h⟩ <;> subst h <;>
      simp [sanitizeParamEntry] at hs3
  · intro s hv
    subst hv
    exact List.mem_filterMap.mpr ⟨(k, .str s), hmem, rfl⟩
  · intro n hv
    subst hv
    exact List.mem_filterMap.mpr ⟨(k, .num n), hmem, rfl⟩
  · intro b hv
    subst hv
    exact List.mem_filterMap.mpr ⟨(k, .bool b), hmem, rfl⟩

/-- C7 witness: on the record of spec property P6, the number 3 under
key b comes out as the string 3, and the null-valued key d is omitted. -/
theorem C7_witness :
    ("b", "3") ∈ validateAndSanitizeParams paramsP6 ∧
    "d" ∉ (validateAndSanitizeParams paramsP6).map Prod.fst :=
  ⟨((C7_sanitize_params paramsP6 (by decide)).2 "b" (.num (.int 3))
      (List.Mem.tail _ (List.Mem.head _))).2.2.1 (.int 3) rfl,
   ((C7_sanitize_params paramsP6 (by decide)).2 "d" .null
      (List.Mem.tail _ (List.Mem.tail _ (List.Mem.tail _ (List.Mem.head _))))).1
      (Or.inr (Or.inl rfl))⟩

/-! ### Claims about makeCourtListenerRequest -/

/-- C4: each of the six failure scenarios - malformed credential, local
rate limit exceeded, network error, timeout, non-2xx status, body that
is not valid JSON - makes makeCourtListenerRequest return the same
sentinel none; it carries no status code or error detail, and the
function is total, so no exception reaches the caller. -/
theorem C4_uniform_failure (params : List (String × JSVal)) (st : RLState)
    (now : Int) (tok : Option String) :
    (tokenTruthy tok = true → validateApiToken tok = false →
      ∀ net, makeCourtListenerRequest params tok st now net = (none, st)) ∧
    (∀ net, ((RateLimiter.mk 100 60000).isAllowed st (clientIdOf tok) now).1 = false →
      (makeCourtListenerRequest params tok st now net).1 = none) ∧
    ((makeCourtListenerRequest params tok st now .netError).1 = none) ∧
    ((makeCourtListenerRequest params tok st now .timeout).1 = none) ∧
    (∀ status body, ¬ (200 ≤ status ∧ status ≤ 299) →
      (makeCourtListenerRequest params tok st now (.response status body)).1 = none) ∧
    (∀ status, (makeCourtListenerRequest params tok st now (.response status none)).1
      = none) := by
  refine ⟨?_, ?_, ?_, ?_, ?_, ?_⟩
  · intro h1 h2 net
    simp [makeCourtListenerRequest, h1, h2]
  · intro net hg
    by_cases ht : (tokenTruthy tok && !validateApiToken tok) = true
    · simp [makeCourtListenerRequest, ht]
    · simp [makeCourtListenerRequest, ht, hg]
  · by_cases ht : (tokenTruthy tok && !validateApiToken tok) = true
    · simp [makeCourtListenerRequest, ht]
    · cases hg : ((RateLimiter.mk 100 60000).isAllowed st (clientIdOf tok) now).1 <;>
        simp [makeCourtListenerRequest, ht, hg]
  · by_cases ht : (tokenTruthy tok && !validateApiToken tok) = true
    · simp [makeCourtListenerRequest, ht]
    · cases hg : ((RateLimiter.mk 100 60000).isAllowed st (clientIdOf tok) now).1 <;>
        simp [makeCourtListenerRequest, ht, hg]
  · intro status body hns
    by_cases ht : (tokenTruthy tok && !validateApiToken tok) = true
    · simp [makeCourtListenerRequest, ht]
    · cases hg : ((RateLimiter.mk 100 60000).isAllowed st (clientIdOf tok) now).1 <;>
        simp [makeCourtListenerRequest, ht, hg]
      rw [if_pos (show status < 200 ∨ 299 < status by omega)]
  · intro status
    by_cases ht : (tokenTruthy tok && !validateApiToken tok) = true
    · simp [makeCourtListenerRequest, ht]
    · cases hg : ((RateLimiter.mk 100 60000).isAllowed st (clientIdOf tok) now).1 <;>
      by_cases hok : (200 ≤ status ∧ status ≤ 299) <;>
        simp [makeCourtListenerRequest, ht, hg, hok]

/-- C4 witness: a malformed credential yields the bare sentinel with the
state untouched. -/
theorem C4_witness :
    makeCourtListenerRequest [] (some "nothex") initState 0 .netError
      = (none, initState) :=
  (C4_uniform_failure [] initState 0 (some "nothex")).1 (by decide) (by decide) .netError

/-- C10: a present but malformed credential short-circuits the request
before the rate limiter is consulted: the sentinel comes back and the
returned state is the input state itself, so no identity's recorded
window changes and no quota slot is consumed. -/
theorem C10_invalid_token_no_quota (s : String) (hs : s ≠ "")
    (hv : validateApiToken (some s) = false) :
    ∀ (params : List (String × JSVal)) (st : RLState) (now : Int) (net : FetchOutcome),
      makeCourtListenerRequest params (some s) st now net = (none, st) := by
  intro params st now net
  have ht : tokenTruthy (some s) = true := by simp [tokenTruthy, hs]
  simp [makeCourtListenerRequest, ht, hv]

/-- C10 witness: the theorem applied at a concrete malformed credential. -/
theorem C10_witness :
    makeCourtListenerRequest [] (some "xyz") initState 5 .timeout = (none, initState) :=
  C10_invalid_token_no_quota "xyz" (by decide) (by decide) [] initState 5 .timeout
